import Mathlib

/-!
Verification of the Bridgy Fed cross-protocol delivery engine
(`src/web.py`, `src/models.py`) against its natural-language spec.

The Python code is shallowly embedded: each Lean definition mirrors one
function or code fragment of the source, with the file/line range noted in
its doc comment. Machine-level concerns (the datastore, HTTP) are modelled
as explicit parameters: a store is a lookup function or an association
list, the per-target HTTP send outcome is a function from targets to an
outcome value.
-/

/-! ## Id escaping (models.py, Object.get_by_id 454-462 and Object.proxy_url 476-487)

`Object.proxy_url` escapes ids with `id.replace('#', '^^')`;
`Object.get_by_id` unescapes with `id.replace('^^', '#')`.
Python `str.replace` substitutes non-overlapping occurrences left to right,
which the two recursions below reproduce character-by-character. -/

/-- Models `id.replace('#', '^^')` from `Object.proxy_url` (models.py:485). -/
def escape : List Char → List Char
  | [] => []
  | c :: rest => if c = '#' then '^' :: '^' :: escape rest else c :: escape rest

/-- Models `id.replace('^^', '#')` from `Object.get_by_id` (models.py:462).
Python replaces the leftmost occurrence first and continues after it. -/
def unescape : List Char → List Char
  | [] => []
  | [c] => [c]
  | c1 :: c2 :: rest =>
    if c1 = '^' ∧ c2 = '^' then '#' :: unescape rest
    else c1 :: unescape (c2 :: rest)

/-- String-level wrapper for `escape`. -/
def escapeStr (s : String) : String := ⟨escape s.data⟩

/-- String-level wrapper for `unescape`. -/
def unescapeStr (s : String) : String := ⟨unescape s.data⟩

theorem unescape_cons_of_ne (c : Char) (l : List Char) (h : c ≠ '^') :
    unescape (c :: l) = c :: unescape l := by
  cases l with
  | nil => simp [unescape]
  | cons c2 rest => simp [unescape, h]

theorem unescape_escape_of_no_caret (l : List Char) (h : '^' ∉ l) :
    unescape (escape l) = l := by
  induction l with
  | nil => simp [escape, unescape]
  | cons c rest ih =>
    have hc : c ≠ '^' := by intro hc; exact h (hc ▸ List.mem_cons_self c rest)
    have hrest : '^' ∉ rest := fun hm => h (List.mem_cons_of_mem c hm)
    by_cases hsh : c = '#'
    · subst hsh
      simp only [escape, if_pos rfl, unescape, ih hrest]
      simp
    · simp only [escape, if_neg hsh]
      rw [unescape_cons_of_ne c _ hc, ih hrest]

theorem escape_unescape_of_no_hash (l : List Char) (h : '#' ∉ l) :
    escape (unescape l) = l := by
  induction l using unescape.induct with
  | case1 => simp [escape, unescape]
  | case2 c =>
    have hc : c ≠ '#' := by intro hc; exact h (hc ▸ List.mem_cons_self c [])
    simp [escape, unescape, hc]
  | case3 c1 c2 rest hcc ih =>
    obtain ⟨h1, h2⟩ := hcc
    subst h1; subst h2
    have hrest : '#' ∉ rest := fun hm => by
      exact h (List.mem_cons_of_mem _ (List.mem_cons_of_mem _ hm))
    simp [unescape, escape, ih hrest]
  | case4 c1 c2 rest hcc ih =>
    have hc1 : c1 ≠ '#' := by intro hc; exact h (hc ▸ List.mem_cons_self c1 _)
    have hrest : '#' ∉ c2 :: rest := fun hm => h (List.mem_cons_of_mem c1 hm)
    simp only [unescape, if_neg hcc, escape, if_neg hc1]
    rw [ih hrest]

/-! ## Claim C8: escape/unescape round trip -/

/-- C8 counterexample: the claim quantifies over *every* id, but an id that
already contains the fragment separator '#' does not survive
`escape ∘ unescape` (it comes back as '^^'), and an id that already contains
the replacement token '^^' does not survive `unescape ∘ escape`. -/
theorem c8_roundtrip_counterexample :
    escapeStr (unescapeStr "#") ≠ "#" ∧ unescapeStr (escapeStr "^^") ≠ "^^" := by
  decide

/-- C8 (amended): the round trip holds on the ids each path actually maps:
`unescape (escape id) = id` for every id free of the caret character (raw
stored ids, which may contain '#'), and `escape (unescape id) = id` for
every id free of '#' (already-escaped ids, which may contain '^^'). -/
theorem c8_roundtrip (id : String) :
    ('^' ∉ id.data → unescapeStr (escapeStr id) = id) ∧
    ('#' ∉ id.data → escapeStr (unescapeStr id) = id) := by
  constructor
  · intro h
    simp only [escapeStr, unescapeStr]
    cases id with
    | mk data => simp [unescape_escape_of_no_caret data h]
  · intro h
    simp only [escapeStr, unescapeStr]
    cases id with
    | mk data => simp [escape_unescape_of_no_hash data h]

/-- C8 witness: a raw id holding a fragment separator round-trips through
the write path, and an escaped id holding the replacement token round-trips
through the read path. -/
theorem c8_roundtrip_witness :
    unescapeStr (escapeStr "https://a.com/post#frag") = "https://a.com/post#frag" ∧
    escapeStr (unescapeStr "https://a.com/post^^frag") = "https://a.com/post^^frag" :=
  ⟨(c8_roundtrip "https://a.com/post#frag").1 (by decide),
   (c8_roundtrip "https://a.com/post^^frag").2 (by decide)⟩

/-! ## User identities and use_instead redirects (models.py, User 67-128) -/

/-- Stored identity record: the key id plus the `use_instead` redirect
reference of `class User` (models.py:87). Other User properties play no
role in the redirect-following claim. -/
structure User where
  uid : String
  use_instead : Option String
deriving DecidableEq, Repr

/-- Models the raw datastore lookup `cls._get_by_id(id)` / `Key.get()`:
returns the entity stored under exactly this key, following nothing. -/
def rawGet (store : List User) (id : String) : Option User :=
  store.find? (fun u => u.uid == id)

/-- Models `User.get_by_id` (models.py:121-128):
```
user = cls._get_by_id(id)
if user and user.use_instead:
    return user.use_instead.get()
return user
```
`user.use_instead.get()` is a raw key get, so exactly one redirect hop is
followed. -/
def User.get_by_id (store : List User) (id : String) : Option User :=
  match rawGet store id with
  | none => none
  | some u =>
    match u.use_instead with
    | some k => rawGet store k
    | none => some u

/-- Chain of two redirects a → b → c used to refute transitive resolution. -/
def chainStore : List User :=
  [⟨"a.com", some "b.com"⟩, ⟨"b.com", some "c.com"⟩, ⟨"c.com", none⟩]

/-! ## Claim C9: use_instead resolution -/

/-- C9 counterexample: with redirects a.com → b.com → c.com,
`User.get_by_id` returns b.com — the middle entity, whose own
`use_instead` is still set — not the fixed point c.com. -/
theorem c9_use_instead_counterexample :
    User.get_by_id chainStore "a.com" = some ⟨"b.com", some "c.com"⟩ ∧
    User.get_by_id chainStore "a.com" ≠ some ⟨"c.com", none⟩ := by
  decide

/-- C9 (amended): reading a stored identity whose `use_instead` reference is
set follows exactly one redirect hop: `get_by_id` returns the entity stored
under the referenced key as-is, without resolving that entity's own
`use_instead`; a chain of two or more redirects therefore resolves to the
first redirect target, not to the fixed point. -/
theorem c9_use_instead_one_hop (store : List User) (id : String) (u : User)
    (k : String) (hu : rawGet store id = some u) (hk : u.use_instead = some k) :
    User.get_by_id store id = rawGet store k := by
  simp [User.get_by_id, hu, hk]

/-- C9 witness: one-hop resolution evaluated on the concrete two-hop chain. -/
theorem c9_use_instead_one_hop_witness :
    User.get_by_id chainStore "a.com" = rawGet chainStore "b.com" :=
  c9_use_instead_one_hop chainStore "a.com" ⟨"a.com", some "b.com"⟩ "b.com"
    (by decide) rfl

/-! ## Delivery targets and the delivery loop (web.py, webmention_task 606-662)

`webmention_task` populates the envelope Object with
`status='in progress'`, `delivered=[]`, `failed=[]`, and `undelivered` set
to one `Target(uri=inbox, protocol='activitypub')` per key of
`inboxes_to_targets`, then iterates over `list(obj.undelivered)`; each
iteration calls `ActivityPub.send`, appends the target to `delivered` on
success or to `failed` on an interpretable error, re-raises an
uninterpretable error, removes the target from `undelivered`, and persists
with `obj.put()`. -/

/-- Models `class Target` (models.py:320-339). -/
structure Target where
  uri : String
  protocol : String
deriving DecidableEq, Repr

/-- Outcome of one `activitypub.ActivityPub.send(obj, inbox, ...)` call as
classified by the `except BaseException` handler (web.py:643-650): success,
an exception that `util.interpret_http_exception` can read a status code or
body out of, or any other exception (re-raised). -/
inductive SendOutcome
  | success
  | softError
  | fatal
deriving DecidableEq, Repr

/-- The three repeated `Target` lists of the envelope Object
(models.py:406-408). -/
structure DeliveryState where
  delivered : List Target
  undelivered : List Target
  failed : List Target
deriving DecidableEq, Repr

/-- Models `obj.populate(status='in progress', delivered=[], failed=[],
undelivered=[Target(uri=uri, protocol='activitypub') for uri in
inboxes_to_targets.keys()])` (web.py:606-613). -/
def initState (targets : List Target) : DeliveryState :=
  ⟨[], targets, []⟩

/-- Models the `for target in list(obj.undelivered)` loop (web.py:616-657).
The snapshot list being iterated is the second argument. Per iteration:
on success `obj.delivered.append(target)`, on an interpretable exception
`obj.failed.append(target)`, then `obj.undelivered.remove(target)` and
`obj.put()`; an uninterpretable exception is re-raised before the remove,
aborting the loop. Returns the final state and whether the loop finished
(`false` = aborted by a re-raised exception). -/
def deliverLoop (outcome : Target → SendOutcome) :
    DeliveryState → List Target → DeliveryState × Bool
  | st, [] => (st, true)
  | st, t :: rest =>
    match outcome t with
    | .success =>
      deliverLoop outcome ⟨st.delivered ++ [t], st.undelivered.erase t, st.failed⟩ rest
    | .softError =>
      deliverLoop outcome ⟨st.delivered, st.undelivered.erase t, st.failed ++ [t]⟩ rest
    | .fatal => (st, false)

/-- The sequence of Object states observed across the run: the populated
in-progress state, then the state persisted by `obj.put()` at the end of
each loop iteration (web.py:657). An aborted run stops observing at the
state current when the exception was re-raised. -/
def observedStates (outcome : Target → SendOutcome) :
    DeliveryState → List Target → List DeliveryState
  | st, [] => [st]
  | st, t :: rest =>
    st ::
      match outcome t with
      | .success =>
        observedStates outcome ⟨st.delivered ++ [t], st.undelivered.erase t, st.failed⟩ rest
      | .softError =>
        observedStates outcome ⟨st.delivered, st.undelivered.erase t, st.failed ++ [t]⟩ rest
      | .fatal => [st]

/-- Models the terminal status assignment (web.py:659-661):
`obj.status = 'complete' if obj.delivered else 'failed' if obj.failed else
'ignored'`. -/
def finalStatus (st : DeliveryState) : String :=
  if st.delivered ≠ [] then "complete"
  else if st.failed ≠ [] then "failed"
  else "ignored"

/-- The three target lists of a state are pairwise disjoint. -/
def pairwiseDisjoint (st : DeliveryState) : Prop :=
  st.delivered.Disjoint st.undelivered ∧
  st.delivered.Disjoint st.failed ∧
  st.undelivered.Disjoint st.failed

theorem nodup_append3_disjoint (a b c : List Target)
    (h : (a ++ (b ++ c)).Nodup) :
    a.Disjoint b ∧ a.Disjoint c ∧ b.Disjoint c := by
  rw [List.nodup_append] at h
  obtain ⟨-, hbc, habc⟩ := h
  rw [List.nodup_append] at hbc
  refine ⟨fun x hxa hxb => habc hxa (List.mem_append_left c hxb),
          fun x hxa hxc => habc hxa (List.mem_append_right b hxc),
          hbc.2.2⟩

theorem perm_success_step (d f rest : List Target) (t : Target) :
    List.Perm ((d ++ [t]) ++ (f ++ rest)) (d ++ (f ++ (t :: rest))) := by
  have h1 : (d ++ [t]) ++ (f ++ rest) = d ++ (t :: (f ++ rest)) := by simp
  have h2 : d ++ (f ++ (t :: rest)) = (d ++ f) ++ (t :: rest) := by simp
  rw [h1, h2]
  refine List.Perm.trans List.perm_middle ?_
  refine List.Perm.symm (List.Perm.trans List.perm_middle ?_)
  simp

theorem observedStates_self_mem (outcome : Target → SendOutcome)
    (st : DeliveryState) (l : List Target) :
    st ∈ observedStates outcome st l := by
  cases l with
  | nil => simp [observedStates]
  | cons t rest =>
    cases h : outcome t <;> simp [observedStates, h]

theorem pairwiseDisjoint_of_nodup (st : DeliveryState)
    (h : (st.delivered ++ (st.failed ++ st.undelivered)).Nodup) :
    pairwiseDisjoint st := by
  obtain ⟨hdf, hdu, hfu⟩ := nodup_append3_disjoint _ _ _ h
  exact ⟨hdu, hdf, hfu.symm⟩

theorem observedStates_inv (outcome : Target → SendOutcome)
    (targets : List Target) (hnd : targets.Nodup) :
    ∀ rem st, st.undelivered = rem →
      List.Perm (st.delivered ++ (st.failed ++ rem)) targets →
      ∀ s ∈ observedStates outcome st rem, pairwiseDisjoint s := by
  intro rem
  induction rem with
  | nil =>
    intro st hu hperm s hs
    simp only [observedStates, List.mem_singleton] at hs
    subst hs
    refine pairwiseDisjoint_of_nodup s ?_
    rw [hu]
    exact (List.Perm.nodup_iff hperm).mpr hnd
  | cons t rest ih =>
    intro st hu hperm s hs
    have hself : pairwiseDisjoint st := by
      refine pairwiseDisjoint_of_nodup st ?_
      rw [hu]
      exact (List.Perm.nodup_iff hperm).mpr hnd
    have herase : st.undelivered.erase t = rest := by
      rw [hu, List.erase_cons_head]
    cases h : outcome t with
    | success =>
      simp only [observedStates, h, List.mem_cons] at hs
      rcases hs with rfl | hs
      · exact hself
      · refine ih ⟨st.delivered ++ [t], st.undelivered.erase t, st.failed⟩
          (by simp [herase]) ?_ s hs
        simp only [herase]
        exact List.Perm.trans (perm_success_step _ _ _ _) hperm
    | softError =>
      simp only [observedStates, h, List.mem_cons] at hs
      rcases hs with rfl | hs
      · exact hself
      · refine ih ⟨st.delivered, st.undelivered.erase t, st.failed ++ [t]⟩
          (by simp [herase]) ?_ s hs
        simp only [herase]
        have heq : st.delivered ++ ((st.failed ++ [t]) ++ rest) =
            st.delivered ++ (st.failed ++ (t :: rest)) := by simp
        exact heq ▸ hperm
    | fatal =>
      have hs' : s = st := by
        simp only [observedStates, h] at hs
        simpa using hs
      subst hs'
      exact hself

theorem deliverLoop_perm (outcome : Target → SendOutcome)
    (targets : List Target) :
    ∀ rem st, st.undelivered = rem →
      List.Perm (st.delivered ++ (st.failed ++ rem)) targets →
      ∀ st', deliverLoop outcome st rem = (st', true) →
        st'.undelivered = [] ∧ List.Perm (st'.delivered ++ st'.failed) targets := by
  intro rem
  induction rem with
  | nil =>
    intro st hu hperm st' hrun
    simp only [deliverLoop, Prod.mk.injEq] at hrun
    obtain ⟨rfl, -⟩ := hrun
    exact ⟨hu, by simpa using hperm⟩
  | cons t rest ih =>
    intro st hu hperm st' hrun
    have herase : st.undelivered.erase t = rest := by
      rw [hu, List.erase_cons_head]
    cases h : outcome t with
    | success =>
      simp only [deliverLoop, h] at hrun
      exact ih ⟨st.delivered ++ [t], st.undelivered.erase t, st.failed⟩
        (by simp [herase])
        (by simpa only [herase] using
          List.Perm.trans (perm_success_step _ _ _ _) hperm)
        st' hrun
    | softError =>
      simp only [deliverLoop, h] at hrun
      refine ih ⟨st.delivered, st.undelivered.erase t, st.failed ++ [t]⟩
        (by simp [herase]) ?_ st' hrun
      simp only [herase]
      have heq : st.delivered ++ ((st.failed ++ [t]) ++ rest) =
          st.delivered ++ (st.failed ++ (t :: rest)) := by simp
      exact heq ▸ hperm
    | fatal =>
      simp only [deliverLoop, h, Prod.mk.injEq] at hrun
      exact absurd hrun.2 (by simp)

theorem deliverLoop_success_mem (outcome : Target → SendOutcome) :
    ∀ rem st st', deliverLoop outcome st rem = (st', true) →
      (∀ t ∈ st.delivered, t ∈ st'.delivered) ∧
      (∀ t ∈ rem, outcome t = SendOutcome.success → t ∈ st'.delivered) := by
  intro rem
  induction rem with
  | nil =>
    intro st st' hrun
    simp only [deliverLoop, Prod.mk.injEq] at hrun
    obtain ⟨rfl, -⟩ := hrun
    exact ⟨fun t ht => ht, by simp⟩
  | cons t rest ih =>
    intro st st' hrun
    cases h : outcome t with
    | success =>
      simp only [deliverLoop, h] at hrun
      obtain ⟨hmono, hrest⟩ :=
        ih ⟨st.delivered ++ [t], st.undelivered.erase t, st.failed⟩ st' hrun
      refine ⟨fun u hu => hmono u (List.mem_append_left [t] hu), ?_⟩
      intro u hu husucc
      rcases List.mem_cons.mp hu with rfl | hu
      · exact hmono u (by simp)
      · exact hrest u hu husucc
    | softError =>
      simp only [deliverLoop, h] at hrun
      obtain ⟨hmono, hrest⟩ :=
        ih ⟨st.delivered, st.undelivered.erase t, st.failed ++ [t]⟩ st' hrun
      refine ⟨hmono, ?_⟩
      intro u hu husucc
      rcases List.mem_cons.mp hu with rfl | hu
      · rw [husucc] at h; exact absurd h (by simp)
      · exact hrest u hu husucc
    | fatal =>
      simp only [deliverLoop, h, Prod.mk.injEq] at hrun
      exact absurd hrun.2 (by simp)

/-! ## Claims C2, C3, C6: the delivery executor -/

/-- C2: for every delivery run that finishes its target loop, the final
status is 'complete' if `delivered` is non-empty, else 'failed' if `failed`
is non-empty, else 'ignored'; in particular one successful delivery plus
any number of per-target failures yields 'complete'. -/
theorem c2_terminal_status (outcome : Target → SendOutcome)
    (targets : List Target) (st : DeliveryState)
    (hrun : deliverLoop outcome (initState targets) targets = (st, true)) :
    finalStatus st = (if st.delivered ≠ [] then "complete"
                      else if st.failed ≠ [] then "failed" else "ignored") ∧
    ((∃ t ∈ targets, outcome t = SendOutcome.success) →
      st.delivered ≠ [] ∧ finalStatus st = "complete") := by
  refine ⟨rfl, ?_⟩
  rintro ⟨t, ht, hsucc⟩
  have hmem : t ∈ st.delivered :=
    (deliverLoop_success_mem outcome targets (initState targets) st hrun).2 t ht hsucc
  have hne : st.delivered ≠ [] := by
    intro h
    rw [h] at hmem
    exact List.not_mem_nil t hmem
  exact ⟨hne, by simp [finalStatus, hne]⟩

/-- Concrete inbox target used in witnesses (the spec scenario's e1). -/
def e1 : Target := ⟨"https://inst1.example/inbox", "activitypub"⟩

/-- Concrete inbox target used in witnesses (the spec scenario's e2). -/
def e2 : Target := ⟨"https://inst2.example/inbox", "activitypub"⟩

/-- Witness outcome: delivery to e1 succeeds, delivery to e2 raises an
interpretable HTTP error. -/
def exOutcome : Target → SendOutcome :=
  fun t => if t = e1 then SendOutcome.success else SendOutcome.softError

/-- C2 witness: the spec scenario — e1 delivers, e2 fails — finishes with
`delivered = [e1]`, `failed = [e2]`, terminal status 'complete'. -/
theorem c2_terminal_status_witness :
    finalStatus ⟨[e1], [], [e2]⟩ =
      (if ([e1] : List Target) ≠ [] then "complete"
       else if ([e2] : List Target) ≠ [] then "failed" else "ignored") ∧
    ((∃ t ∈ [e1, e2], exOutcome t = SendOutcome.success) →
      ([e1] : List Target) ≠ [] ∧ finalStatus ⟨[e1], [], [e2]⟩ = "complete") :=
  c2_terminal_status exOutcome [e1, e2] ⟨[e1], [], [e2]⟩ (by decide)

/-- C3: on entering 'in progress' the full resolved target set is recorded
as `undelivered` with `delivered` and `failed` empty; every state observed
during the run has pairwise-disjoint target lists; and after a run that
completes its loop, `undelivered` is empty and a target was resolved
originally iff it ended in `delivered` or in `failed`. -/
theorem c3_target_lists_invariant (outcome : Target → SendOutcome)
    (targets : List Target) (hnd : targets.Nodup) :
    (initState targets).undelivered = targets ∧
    (initState targets).delivered = [] ∧
    (initState targets).failed = [] ∧
    (∀ s ∈ observedStates outcome (initState targets) targets,
      pairwiseDisjoint s) ∧
    (∀ st, deliverLoop outcome (initState targets) targets = (st, true) →
      st.undelivered = [] ∧
      ∀ t, t ∈ targets ↔ (t ∈ st.delivered ∨ t ∈ st.failed)) := by
  refine ⟨rfl, rfl, rfl, ?_, ?_⟩
  · exact observedStates_inv outcome targets hnd targets (initState targets)
      rfl (by simp [initState])
  · intro st hrun
    obtain ⟨hempty, hperm⟩ := deliverLoop_perm outcome targets targets
      (initState targets) rfl (by simp [initState]) st hrun
    refine ⟨hempty, fun t => ?_⟩
    rw [← List.Perm.mem_iff hperm, List.mem_append]

/-- C3 witness: the invariant instantiated on the concrete two-target run. -/
theorem c3_target_lists_invariant_witness :
    (initState [e1, e2]).undelivered = [e1, e2] ∧
    (initState [e1, e2]).delivered = [] ∧
    (initState [e1, e2]).failed = [] ∧
    (∀ s ∈ observedStates exOutcome (initState [e1, e2]) [e1, e2],
      pairwiseDisjoint s) ∧
    (∀ st, deliverLoop exOutcome (initState [e1, e2]) [e1, e2] = (st, true) →
      st.undelivered = [] ∧
      ∀ t, t ∈ [e1, e2] ↔ (t ∈ st.delivered ∨ t ∈ st.failed)) :=
  c3_target_lists_invariant exOutcome [e1, e2] (by decide)

/-- C6: with the loop at a state whose undelivered snapshot is t :: rest —
if sending to t raises an interpretable (transport/protocol-level) error,
t moves from `undelivered` to `failed`, that state is persisted (observed),
and the loop continues with `rest`; if the exception is uninterpretable it
propagates, the run aborts returning the state unchanged, and every
remaining target — t included — is still in `undelivered`. -/
theorem c6_per_target_errors (outcome : Target → SendOutcome)
    (st : DeliveryState) (t : Target) (rest : List Target)
    (hu : st.undelivered = t :: rest) (hnd : (t :: rest).Nodup) :
    (outcome t = SendOutcome.softError →
      deliverLoop outcome st (t :: rest) =
        deliverLoop outcome ⟨st.delivered, rest, st.failed ++ [t]⟩ rest ∧
      (t ∈ st.failed ++ [t] ∧ t ∉ rest) ∧
      (⟨st.delivered, rest, st.failed ++ [t]⟩ : DeliveryState) ∈
        observedStates outcome st (t :: rest)) ∧
    (outcome t = SendOutcome.fatal →
      deliverLoop outcome st (t :: rest) = (st, false) ∧
      ∀ u ∈ t :: rest, u ∈ st.undelivered) := by
  have herase : st.undelivered.erase t = rest := by
    rw [hu, List.erase_cons_head]
  constructor
  · intro hsoft
    refine ⟨by simp [deliverLoop, hsoft, herase], ⟨by simp, ?_⟩, ?_⟩
    · exact (List.nodup_cons.mp hnd).1
    · simp only [observedStates, hsoft, herase, List.mem_cons]
      exact Or.inr (observedStates_self_mem outcome _ rest)
  · intro hfatal
    exact ⟨by simp [deliverLoop, hfatal], fun u hmem => hu ▸ hmem⟩

/-- Witness outcome for C6: e1 raises an interpretable HTTP error, e2 an
uninterpretable exception. -/
def exOutcome2 : Target → SendOutcome :=
  fun t => if t = e1 then SendOutcome.softError else SendOutcome.fatal

/-- C6 witness: the per-target error clauses evaluated with `undelivered =
[e1, e2]`, a soft error on e1 at the head of the loop, and (symmetrically) a
fatal error at the head of a loop over [e2]. -/
theorem c6_per_target_errors_witness :
    ((exOutcome2 e1 = SendOutcome.softError →
      deliverLoop exOutcome2 (initState [e1, e2]) [e1, e2] =
        deliverLoop exOutcome2 ⟨[], [e2], [] ++ [e1]⟩ [e2] ∧
      (e1 ∈ [] ++ [e1] ∧ e1 ∉ [e2]) ∧
      (⟨[], [e2], [] ++ [e1]⟩ : DeliveryState) ∈
        observedStates exOutcome2 (initState [e1, e2]) [e1, e2]) ∧
    (exOutcome2 e1 = SendOutcome.fatal →
      deliverLoop exOutcome2 (initState [e1, e2]) [e1, e2] =
        (initState [e1, e2], false) ∧
      ∀ u ∈ [e1, e2], u ∈ (initState [e1, e2]).undelivered)) ∧
    exOutcome2 e1 = SendOutcome.softError ∧ exOutcome2 e2 = SendOutcome.fatal :=
  ⟨c6_per_target_errors exOutcome2 (initState [e1, e2]) e1 [e2] rfl (by decide),
   by decide, by decide⟩

/-! ## Envelope and idempotence logic (web.py, webmention_task 556-601)

For content objects (`obj.type in ('note', 'article', 'comment')`):
`obj.changed` wraps in an Update activity with id
`f'{obj.key.id()}#bridgy-fed-update-{updated}'`; else `obj.new or 'force'
in request.form` wraps in a Create ('post') activity with id
`f'{obj.key.id()}#bridgy-fed-create'`; else the task returns 204
"unchanged, nothing to do". Other types are delivered as-is.
The `new`/`changed` flags are set by `Protocol.load` (spec section 4.2):
`new` means no prior stored Object existed, `changed` means the stored
native content differs from the fresh fetch, so `new = true` entails
`changed = false`. -/

/-- AS1 property dictionary, modelled as an association list with
first-match lookup standing in for Python dict key lookup. -/
abbrev AS1 := List (String × String)

/-- Deterministic Create envelope id `f'{obj.key.id()}#bridgy-fed-create'`
(web.py:584). -/
def createId (objId : String) : String := objId ++ "#bridgy-fed-create"

/-- Update envelope id `f'{obj.key.id()}#bridgy-fed-update-{updated}'`
(web.py:561), qualified by the change timestamp. -/
def updateId (objId updated : String) : String :=
  objId ++ "#bridgy-fed-update-" ++ updated

/-- Delete envelope id `f'{source}#bridgy-fed-delete'` (web.py:499). -/
def deleteId (source : String) : String := source ++ "#bridgy-fed-delete"

/-- Models the inner object of the Update envelope,
`{'updated': updated, **obj.as1}` (web.py:569-577): the source object's own
properties override the synthesized default, so under first-match lookup
the default is appended last. -/
def updateInner (objAs1 : AS1) (updated : String) : AS1 :=
  objAs1 ++ [("updated", updated)]

/-- Result of the content-envelope branch (web.py:556-601). -/
inductive ContentAction
  | wrapped (envelope_id : String) (verb : String) (inner : AS1)
  | unchanged204
  | passthrough
deriving DecidableEq, Repr

/-- Models web.py:556-601: the envelope decision for an inbound object,
keyed on its computed type, the `changed`/`new` flags from the fetch, and
the caller's force flag. `now` is `util.now().isoformat()`. -/
def contentEnvelope (typ objId : String) (objAs1 : AS1)
    (changed new force : Bool) (now : String) : ContentAction :=
  if typ = "note" ∨ typ = "article" ∨ typ = "comment" then
    if changed then
      ContentAction.wrapped (updateId objId now) "update" (updateInner objAs1 now)
    else if new || force then
      ContentAction.wrapped (createId objId) "post" objAs1
    else
      ContentAction.unchanged204
  else
    ContentAction.passthrough

theorem lookup_append_default (l : AS1) (k v : String) :
    List.lookup k (l ++ [(k, v)]) = some ((List.lookup k l).getD v) := by
  induction l with
  | nil => simp [List.lookup]
  | cons p rest ih =>
    obtain ⟨k1, v1⟩ := p
    by_cases h : k = k1
    · subst h
      simp [List.lookup]
    · have hb : (k == k1) = false := beq_eq_false_iff_ne.mpr h
      simp [List.lookup, hb, ih]

theorem update_id_ne_create_id (objId ts : String) :
    updateId objId ts ≠ createId objId := by
  intro h
  have hd := congrArg String.data h
  simp only [updateId, createId, String.data_append] at hd
  rw [List.append_assoc] at hd
  have hsuffix := List.append_cancel_left hd
  simp at hsuffix

/-! ## Claim C1: Create wrapping and no-op idempotence -/

/-- C1: for a content object (note/article/comment) with no prior stored
Object (`new`, not `changed`), any run wraps it in a Create ('post')
envelope with the deterministic id `{content-id}#bridgy-fed-create`;
with a prior record and identical content (neither `new` nor `changed`),
the run is the 204 "unchanged" no-op producing no envelope — unless forced,
in which case it re-wraps as Create under that same deterministic id.
Hence reprocessing unchanged content yields exactly one Create id. -/
theorem c1_create_idempotence (objId typ : String)
    (htyp : typ = "note" ∨ typ = "article" ∨ typ = "comment")
    (objAs1 : AS1) (now now2 : String) (force : Bool) :
    contentEnvelope typ objId objAs1 false true force now =
      ContentAction.wrapped (createId objId) "post" objAs1 ∧
    contentEnvelope typ objId objAs1 false false false now2 =
      ContentAction.unchanged204 ∧
    contentEnvelope typ objId objAs1 false false true now2 =
      ContentAction.wrapped (createId objId) "post" objAs1 ∧
    createId objId = objId ++ "#bridgy-fed-create" := by
  refine ⟨?_, ?_, ?_, rfl⟩ <;> simp [contentEnvelope, htyp]

/-- C1 witness: a note first seen, then reprocessed unchanged (204), then
reprocessed unchanged with force (same Create id). -/
theorem c1_create_idempotence_witness :
    contentEnvelope "note" "https://user.com/post" [("content", "hi")]
        false true false "2022-01-02T03:04:05+00:00" =
      ContentAction.wrapped (createId "https://user.com/post") "post"
        [("content", "hi")] ∧
    contentEnvelope "note" "https://user.com/post" [("content", "hi")]
        false false false "2022-01-03T00:00:00+00:00" =
      ContentAction.unchanged204 ∧
    contentEnvelope "note" "https://user.com/post" [("content", "hi")]
        false false true "2022-01-03T00:00:00+00:00" =
      ContentAction.wrapped (createId "https://user.com/post") "post"
        [("content", "hi")] ∧
    createId "https://user.com/post" =
      "https://user.com/post" ++ "#bridgy-fed-create" :=
  c1_create_idempotence "https://user.com/post" "note" (Or.inl rfl)
    [("content", "hi")] "2022-01-02T03:04:05+00:00"
    "2022-01-03T00:00:00+00:00" false

/-! ## Claim C4: Update wrapping for changed content -/

/-- C4: a content object whose fresh fetch differs from the stored content
(`changed`) is wrapped in an Update envelope with id
`{content-id}#bridgy-fed-update-{timestamp}`, which differs from the Create
envelope's id for every timestamp; the envelope's inner object carries an
'updated' property equal to the source's own value when the source supplied
one and to the synthesized timestamp otherwise. -/
theorem c4_update_envelope (objId typ : String)
    (htyp : typ = "note" ∨ typ = "article" ∨ typ = "comment")
    (objAs1 : AS1) (now : String) (new force : Bool) :
    contentEnvelope typ objId objAs1 true new force now =
      ContentAction.wrapped (updateId objId now) "update"
        (updateInner objAs1 now) ∧
    updateId objId now ≠ createId objId ∧
    List.lookup "updated" (updateInner objAs1 now) =
      some ((List.lookup "updated" objAs1).getD now) := by
  refine ⟨by simp [contentEnvelope, htyp], update_id_ne_create_id objId now, ?_⟩
  exact lookup_append_default objAs1 "updated" now

/-- C4 witness: a changed note without its own 'updated' property gets the
synthesized timestamp; the Update id differs from the Create id. -/
theorem c4_update_envelope_witness :
    contentEnvelope "note" "https://user.com/post" [("content", "hello")]
        true false false "2022-01-02T03:04:05+00:00" =
      ContentAction.wrapped
        (updateId "https://user.com/post" "2022-01-02T03:04:05+00:00")
        "update"
        (updateInner [("content", "hello")] "2022-01-02T03:04:05+00:00") ∧
    updateId "https://user.com/post" "2022-01-02T03:04:05+00:00" ≠
      createId "https://user.com/post" ∧
    List.lookup "updated"
        (updateInner [("content", "hello")] "2022-01-02T03:04:05+00:00") =
      some ((List.lookup "updated" [("content", "hello")]).getD
        "2022-01-02T03:04:05+00:00") :=
  c4_update_envelope "https://user.com/post" "note" (Or.inl rfl)
    [("content", "hello")] "2022-01-02T03:04:05+00:00" false false

/-! ## Delete synthesis on gone sources (web.py, webmention_task 484-506)

`Web.load(source, ...)` raising `HTTPError` with a response status other
than 410/404 is surfaced as a 502 error; on 410/404 the task looks up
`Object.get_by_id(f'{source}#bridgy-fed-create')` and, unless that Object
exists with status 'complete', errors out with 304 ("hasn't successfully
published"); otherwise it synthesizes a delete activity Object with id
`f'{source}#bridgy-fed-delete'`. -/

/-- Stored Object record as needed by the delete branch: only its
lifecycle `status` property (models.py:356) is consulted. -/
structure StoredObject where
  status : Option String
deriving DecidableEq, Repr

/-- Models `Object.get_by_id` (models.py:454-462): a raw datastore get of
the key with '^^' unescaped back to '#'. -/
def Object.get_by_id (store : String → Option StoredObject) (id : String) :
    Option StoredObject :=
  store (unescapeStr id)

theorem unescape_of_no_caret (l : List Char) (h : '^' ∉ l) :
    unescape l = l := by
  induction l with
  | nil => simp [unescape]
  | cons c rest ih =>
    have hc : c ≠ '^' := fun hc => h (hc ▸ List.mem_cons_self c rest)
    rw [unescape_cons_of_ne c rest hc,
        ih (fun hm => h (List.mem_cons_of_mem c hm))]

theorem get_by_id_no_caret (store : String → Option StoredObject)
    (id : String) (h : '^' ∉ id.data) :
    Object.get_by_id store id = store id := by
  have : unescapeStr id = id := by
    cases id with
    | mk data => simp [unescapeStr, unescape_of_no_caret data h]
  simp [Object.get_by_id, this]

/-- How the fetch of the source page ended: success, `BadRequest` (no
microformats etc.), or `requests.HTTPError` with a response status. -/
inductive FetchOutcome
  | ok
  | badRequestExc
  | httpError (status : Nat)
deriving DecidableEq, Repr

/-- What the fetch/delete prologue of `webmention_task` does next:
continue with the fetched object, abort with an HTTP error response, or
continue with a synthesized delete activity. -/
inductive FetchStep
  | proceed
  | errorResp (status : Nat)
  | deleteActivity (id : String) (verb : String) (objectId : String)
deriving DecidableEq, Repr

/-- Models web.py:484-506. -/
def fetchSourceStep (store : String → Option StoredObject) (source : String)
    (fr : FetchOutcome) : FetchStep :=
  match fr with
  | FetchOutcome.ok => FetchStep.proceed
  | FetchOutcome.badRequestExc => FetchStep.errorResp 304
  | FetchOutcome.httpError status =>
    if ¬ (status = 410 ∨ status = 404) then FetchStep.errorResp 502
    else
      match Object.get_by_id store (createId source) with
      | none => FetchStep.errorResp 304
      | some c =>
        if c.status = some "complete" then
          FetchStep.deleteActivity (deleteId source) "delete" source
        else FetchStep.errorResp 304

/-! ## Claim C5: delete synthesized iff gone source and completed Create -/

/-- C5: a delete activity with id `{source}#bridgy-fed-delete` is
synthesized iff the fetch raised HTTP 410 or 404 and the stored Object
`{source}#bridgy-fed-create` exists with status 'complete'; in every other
case no delete activity of any id materializes. -/
theorem c5_delete_synthesis (store : String → Option StoredObject)
    (source : String) (fr : FetchOutcome) (hsrc : '^' ∉ source.data) :
    (fetchSourceStep store source fr =
        FetchStep.deleteActivity (deleteId source) "delete" source ↔
      ((fr = FetchOutcome.httpError 410 ∨ fr = FetchOutcome.httpError 404) ∧
       ∃ c, store (createId source) = some c ∧ c.status = some "complete")) ∧
    (∀ id verb o, fetchSourceStep store source fr =
        FetchStep.deleteActivity id verb o →
      id = deleteId source ∧ verb = "delete" ∧ o = source) := by
  have hget : Object.get_by_id store (createId source) =
      store (createId source) := by
    apply get_by_id_no_caret
    simp only [createId, String.data_append]
    intro hmem
    rcases List.mem_append.mp hmem with h1 | h1
    · exact hsrc h1
    · exact absurd h1 (by decide)
  cases fr with
  | ok => simp [fetchSourceStep]
  | badRequestExc => simp [fetchSourceStep]
  | httpError status =>
    by_cases hst : status = 410 ∨ status = 404
    · cases hc : store (createId source) with
      | none => simp [fetchSourceStep, hst, hget, hc]
      | some c =>
        by_cases hcs : c.status = some "complete"
        · simp [fetchSourceStep, hst, hget, hc, hcs]
        · simp [fetchSourceStep, hst, hget, hc, hcs]
    · have h410 : status ≠ 410 := fun h => hst (Or.inl h)
      have h404 : status ≠ 404 := fun h => hst (Or.inr h)
      simp [fetchSourceStep, hst, h410, h404]

/-- Concrete store for the C5 witness: only the completed Create envelope
of one published post exists. -/
def exStore : String → Option StoredObject :=
  fun id => if id = createId "https://user.com/post" then
    some ⟨some "complete"⟩ else none

/-- C5 witness: the iff instantiated at a 410-gone fetch of a source whose
Create envelope completed. -/
theorem c5_delete_synthesis_witness :
    (fetchSourceStep exStore "https://user.com/post"
        (FetchOutcome.httpError 410) =
        FetchStep.deleteActivity (deleteId "https://user.com/post") "delete"
          "https://user.com/post" ↔
      ((FetchOutcome.httpError 410 = FetchOutcome.httpError 410 ∨
        FetchOutcome.httpError 410 = FetchOutcome.httpError 404) ∧
       ∃ c, exStore (createId "https://user.com/post") = some c ∧
         c.status = some "complete")) ∧
    (∀ id verb o, fetchSourceStep exStore "https://user.com/post"
        (FetchOutcome.httpError 410) = FetchStep.deleteActivity id verb o →
      id = deleteId "https://user.com/post" ∧ verb = "delete" ∧
        o = "https://user.com/post") :=
  c5_delete_synthesis exStore "https://user.com/post"
    (FetchOutcome.httpError 410) (by decide)

/-! ## Follower fan-out targets (web.py, _activitypub_targets 738-756)

When there are no explicit targets (or the verb is 'share'), the loop over
`Follower.query(Follower.to == g.user.key, Follower.status == 'active')`
resolves each follower's inbox from its stored actor doc —
`recip.obj.as2.get('endpoints', {}).get('sharedInbox') or
recip.obj.as2.get('publicInbox') or recip.obj.as2.get('inbox')` — and
assigns `inboxes_to_targets[inbox] = target_obj if verb == 'share' else
None`, a Python dict assignment keyed by the endpoint. -/

/-- Python dict assignment `m[k] = v` on an insertion-ordered dict: if the
key is present its value is replaced in place, else the pair is appended. -/
def dictInsert {α : Type} (m : List (String × α)) (k : String) (v : α) :
    List (String × α) :=
  if ∃ p ∈ m, p.1 = k then
    m.map (fun p => if p.1 = k then (k, v) else p)
  else m ++ [(k, v)]

theorem keys_dictInsert {α : Type} (m : List (String × α)) (k : String)
    (v : α) :
    (dictInsert m k v).map Prod.fst =
      if ∃ p ∈ m, p.1 = k then m.map Prod.fst
      else m.map Prod.fst ++ [k] := by
  unfold dictInsert
  by_cases h : ∃ p ∈ m, p.1 = k
  · simp only [h, if_true, List.map_map]
    apply List.map_congr_left
    intro p hp
    by_cases hpk : p.1 = k
    · simp [hpk]
    · simp [hpk]
  · simp [h]

theorem keys_nodup_dictInsert {α : Type} (m : List (String × α))
    (k : String) (v : α) (h : (m.map Prod.fst).Nodup) :
    ((dictInsert m k v).map Prod.fst).Nodup := by
  rw [keys_dictInsert]
  by_cases hmem : ∃ p ∈ m, p.1 = k
  · simpa [hmem] using h
  · simp only [hmem, if_false]
    rw [List.nodup_append]
    refine ⟨h, List.nodup_singleton k, ?_⟩
    intro x hx hxk
    rw [List.mem_singleton] at hxk
    subst hxk
    obtain ⟨p, hp, hpk⟩ := List.mem_map.mp hx
    exact hmem ⟨p, hp, hpk⟩

theorem lookup_map_replace {α : Type} (m : List (String × α)) (k : String)
    (v : α) (h : ∃ p ∈ m, p.1 = k) :
    List.lookup k (m.map (fun p => if p.1 = k then (k, v) else p)) =
      some v := by
  induction m with
  | nil => simp at h
  | cons p rest ih =>
    by_cases hpk : p.1 = k
    · rw [List.map_cons, if_pos hpk]
      simp [List.lookup]
    · have hkb : (k == p.1) = false := beq_eq_false_iff_ne.mpr (Ne.symm hpk)
      have hrest : ∃ q ∈ rest, q.1 = k := by
        rcases h with ⟨q, hq, hqk⟩
        rcases List.mem_cons.mp hq with rfl | hq
        · exact absurd hqk hpk
        · exact ⟨q, hq, hqk⟩
      rw [List.map_cons, if_neg hpk]
      simp [List.lookup, hkb, ih hrest]

theorem lookup_append_single {α : Type} (m : List (String × α))
    (k : String) (v : α) (hk : ¬ ∃ p ∈ m, p.1 = k) :
    List.lookup k (m ++ [(k, v)]) = some v := by
  induction m with
  | nil => simp [List.lookup]
  | cons p rest ih =>
    have hpk : p.1 ≠ k := fun hp => hk ⟨p, List.mem_cons_self p rest, hp⟩
    have hkb : (k == p.1) = false := beq_eq_false_iff_ne.mpr (Ne.symm hpk)
    have hrest : ¬ ∃ q ∈ rest, q.1 = k := fun hq => by
      obtain ⟨q, hqm, hqk⟩ := hq
      exact hk ⟨q, List.mem_cons_of_mem p hqm, hqk⟩
    simp [List.lookup, hkb, ih hrest]

/-- Python dict semantics: the assignment for a key wins — looking that key
up afterwards returns exactly the value last assigned. -/
theorem lookup_dictInsert {α : Type} (m : List (String × α)) (k : String)
    (v : α) : List.lookup k (dictInsert m k v) = some v := by
  unfold dictInsert
  by_cases h : ∃ p ∈ m, p.1 = k
  · simpa [h] using lookup_map_replace m k v h
  · simpa [h] using lookup_append_single m k v h

theorem lookup_map_replace_ne {α : Type} (m : List (String × α))
    (k k' : String) (v : α) (h : k' ≠ k) :
    List.lookup k' (m.map (fun p => if p.1 = k then (k, v) else p)) =
      List.lookup k' m := by
  induction m with
  | nil => simp
  | cons p rest ih =>
    by_cases hpk : p.1 = k
    · have hk'k : (k' == k) = false := beq_eq_false_iff_ne.mpr h
      have hk'p : (k' == p.1) = false :=
        beq_eq_false_iff_ne.mpr (fun he => h (he.trans hpk))
      rw [List.map_cons, if_pos hpk]
      simp [List.lookup, hk'k, hk'p, ih]
    · rw [List.map_cons, if_neg hpk]
      cases hkp : (k' == p.1) <;> simp [List.lookup, hkp, ih]

theorem lookup_append_single_ne {α : Type} (m : List (String × α))
    (k k' : String) (v : α) (h : k' ≠ k) :
    List.lookup k' (m ++ [(k, v)]) = List.lookup k' m := by
  induction m with
  | nil => simp [List.lookup, beq_eq_false_iff_ne.mpr h]
  | cons p rest ih =>
    cases hkp : (k' == p.1) <;> simp [List.lookup, hkp, ih]

theorem lookup_dictInsert_ne {α : Type} (m : List (String × α))
    (k k' : String) (v : α) (h : k' ≠ k) :
    List.lookup k' (dictInsert m k v) = List.lookup k' m := by
  unfold dictInsert
  by_cases hany : ∃ p ∈ m, p.1 = k
  · simpa [hany] using lookup_map_replace_ne m k k' v h
  · simpa [hany] using lookup_append_single_ne m k k' v h

theorem mem_keys_of_lookup {α : Type} (l : List (String × α)) (k : String)
    (v : α) (h : List.lookup k l = some v) : k ∈ l.map Prod.fst := by
  induction l with
  | nil => simp [List.lookup] at h
  | cons p rest ih =>
    cases hkp : (k == p.1) with
    | true =>
      simp only [List.map_cons, List.mem_cons]
      exact Or.inl (beq_iff_eq.mp hkp)
    | false =>
      simp only [List.lookup, hkp] at h
      exact List.mem_cons_of_mem _ (ih h)

/-- Inbox endpoints of one follower's stored actor AS2 doc:
`recip.obj.as2.get('endpoints', {}).get('sharedInbox')`,
`recip.obj.as2.get('publicInbox')`, `recip.obj.as2.get('inbox')`
(web.py:746-748). -/
structure ActorEndpoints where
  sharedInbox : Option String
  publicInbox : Option String
  inbox : Option String
deriving DecidableEq, Repr

/-- One row of the follower query joined with its `from_` user's stored
actor doc: the Follower `status` (models.py:558) and the endpoints of
`recip.obj.as2` when `recip and recip.obj and recip.obj.as2` all hold
(`none` otherwise). -/
structure FollowerRow where
  status : String
  endpoints : Option ActorEndpoints
deriving DecidableEq, Repr

/-- Python `x or y` over optional strings: None and the empty string are
falsy. -/
def pyOr (x y : Option String) : Option String :=
  match x with
  | some s => if s = "" then y else some s
  | none => y

/-- Models web.py:743-749: `inbox = (... sharedInbox or publicInbox or
inbox)` when the follower's actor doc is available, followed by the
`if inbox:` truthiness guard. -/
def resolveInbox (f : FollowerRow) : Option String :=
  match f.endpoints with
  | none => none
  | some e =>
    match pyOr e.sharedInbox (pyOr e.publicInbox e.inbox) with
    | none => none
    | some s => if s = "" then none else some s

/-- Models the follower fan-out loop (web.py:738-756): for each follower of
the query result with status 'active', resolve an inbox endpoint and
execute the dict assignment `inboxes_to_targets[inbox] = target_obj if
verb == 'share' else None`; followers without a resolvable endpoint are
dropped with a logged error. `α` is the type of AS2 documents and
`target_obj` is the last explicit target document resolved earlier in
`_activitypub_targets`. -/
def followerFanout {α : Type} (verb : String) (target_obj : Option α)
    (followers : List FollowerRow) (m : List (String × Option α)) :
    List (String × Option α) :=
  match followers with
  | [] => m
  | f :: rest =>
    if f.status = "active" then
      match resolveInbox f with
      | some inbox =>
        followerFanout verb target_obj rest
          (dictInsert m inbox (if verb = "share" then target_obj else none))
      | none => followerFanout verb target_obj rest m
    else followerFanout verb target_obj rest m

/-- Models web.py:611-612: `undelivered=[Target(uri=uri,
protocol='activitypub') for uri in inboxes_to_targets.keys()]`. -/
def targetsOfInboxes {α : Type} (m : List (String × Option α)) :
    List Target :=
  m.map (fun p => ⟨p.1, "activitypub"⟩)

theorem fanout_keys_nodup {α : Type} (verb : String) (tobj : Option α) :
    ∀ (followers : List FollowerRow) (m : List (String × Option α)),
      (m.map Prod.fst).Nodup →
      ((followerFanout verb tobj followers m).map Prod.fst).Nodup := by
  intro followers
  induction followers with
  | nil => intro m hm; exact hm
  | cons f rest ih =>
    intro m hm
    by_cases hact : f.status = "active"
    · cases hres : resolveInbox f with
      | none => simpa [followerFanout, hact, hres] using ih m hm
      | some inbox =>
        simp only [followerFanout, hact, if_true, hres]
        exact ih _ (keys_nodup_dictInsert m inbox _ hm)
    · simpa [followerFanout, hact] using ih m hm

theorem fanout_lookup {α : Type} (verb : String) (tobj : Option α) :
    ∀ (followers : List FollowerRow) (m : List (String × Option α))
      (i : String),
      (List.lookup i m = some (if verb = "share" then tobj else none) ∨
        ∃ f ∈ followers, f.status = "active" ∧ resolveInbox f = some i) →
      List.lookup i (followerFanout verb tobj followers m) =
        some (if verb = "share" then tobj else none) := by
  intro followers
  induction followers with
  | nil =>
    intro m i hi
    rcases hi with hi | ⟨f, hf, -⟩
    · exact hi
    · exact absurd hf (List.not_mem_nil f)
  | cons f rest ih =>
    intro m i hi
    by_cases hact : f.status = "active"
    · cases hres : resolveInbox f with
      | none =>
        simp only [followerFanout, hact, if_true, hres]
        refine ih m i ?_
        rcases hi with hi | ⟨g, hg, hgact, hgres⟩
        · exact Or.inl hi
        · rcases List.mem_cons.mp hg with rfl | hg
          · rw [hgres] at hres; cases hres
          · exact Or.inr ⟨g, hg, hgact, hgres⟩
      | some inbox =>
        simp only [followerFanout, hact, if_true, hres]
        refine ih _ i ?_
        by_cases hik : i = inbox
        · subst hik
          exact Or.inl (lookup_dictInsert m i _)
        · rcases hi with hi | ⟨g, hg, hgact, hgres⟩
          · exact Or.inl ((lookup_dictInsert_ne m inbox i _ hik).trans hi)
          · rcases List.mem_cons.mp hg with rfl | hg
            · rw [hgres] at hres
              cases hres
              exact absurd rfl hik
            · exact Or.inr ⟨g, hg, hgact, hgres⟩
    · simp only [followerFanout, hact, if_false]
      refine ih m i ?_
      rcases hi with hi | ⟨g, hg, hgact, hgres⟩
      · exact Or.inl hi
      · rcases List.mem_cons.mp hg with rfl | hg
        · exact absurd hgact hact
        · exact Or.inr ⟨g, hg, hgact, hgres⟩

/-! ## Claim C7: follower fan-out de-duplicates by endpoint -/

/-- C7: the fan-out result is an endpoint-keyed dict, so its keys are
duplicate-free; for any endpoint some active follower resolves to, the dict
holds exactly one entry — hence `undelivered` gets exactly one Target for
that endpoint, i.e. one delivery attempt — whose value is the last value
assigned for that key (`target_obj` for 'share', else None). In particular
two active followers resolving to the same inbox collapse to one
delivery. -/
theorem c7_follower_fanout_dedup {α : Type} (verb : String)
    (target_obj : Option α) (followers : List FollowerRow) (i : String)
    (hwit : ∃ f ∈ followers, f.status = "active" ∧ resolveInbox f = some i) :
    ((followerFanout verb target_obj followers []).map Prod.fst).Nodup ∧
    List.lookup i (followerFanout verb target_obj followers []) =
      some (if verb = "share" then target_obj else none) ∧
    ((followerFanout verb target_obj followers []).map Prod.fst).count i
      = 1 ∧
    (targetsOfInboxes (followerFanout verb target_obj followers [])).count
      (⟨i, "activitypub"⟩ : Target) = 1 := by
  have hnd : ((followerFanout verb target_obj followers []).map
      Prod.fst).Nodup :=
    fanout_keys_nodup verb target_obj followers [] (by simp)
  have hlook := fanout_lookup verb target_obj followers [] i (Or.inr hwit)
  have hmem : i ∈ (followerFanout verb target_obj followers []).map
      Prod.fst := mem_keys_of_lookup _ i _ hlook
  have hcount := List.count_eq_one_of_mem hnd hmem
  refine ⟨hnd, hlook, hcount, ?_⟩
  have hinj : Function.Injective
      (fun u => (⟨u, "activitypub"⟩ : Target)) := by
    intro a b hab
    simpa using congrArg Target.uri hab
  have : targetsOfInboxes (followerFanout verb target_obj followers []) =
      ((followerFanout verb target_obj followers []).map Prod.fst).map
        (fun u => (⟨u, "activitypub"⟩ : Target)) := by
    simp [targetsOfInboxes, List.map_map]
  rw [this, List.count_map_of_injective _ _ hinj, hcount]

/-- Two active followers sharing one broadcast endpoint, for the C7
witness. -/
def f1row : FollowerRow :=
  ⟨"active", some ⟨some "https://shared.example/inbox", none, none⟩⟩

/-- Second active follower whose actor doc lacks a shared endpoint but
whose individual endpoints fall back to the same inbox. -/
def f2row : FollowerRow :=
  ⟨"active", some ⟨some "https://shared.example/inbox", none,
    some "https://other.example/inbox"⟩⟩

/-- C7 witness: two active followers resolving to one shared endpoint
collapse to a single-keyed dict entry and a single delivery Target. -/
theorem c7_follower_fanout_dedup_witness :
    ((followerFanout "post" (none : Option String) [f1row, f2row] []).map
      Prod.fst).Nodup ∧
    List.lookup "https://shared.example/inbox"
        (followerFanout "post" (none : Option String) [f1row, f2row] []) =
      some (if "post" = "share" then (none : Option String) else none) ∧
    ((followerFanout "post" (none : Option String) [f1row, f2row] []).map
      Prod.fst).count "https://shared.example/inbox" = 1 ∧
    (targetsOfInboxes
        (followerFanout "post" (none : Option String) [f1row, f2row] [])).count
      (⟨"https://shared.example/inbox", "activitypub"⟩ : Target) = 1 :=
  c7_follower_fanout_dedup "post" (none : Option String) [f1row, f2row]
    "https://shared.example/inbox"
    ⟨f1row, by simp, by decide, by decide⟩

/-! ## Object entities and the post-put cache hook (models.py 342-452)

`Object._post_put_hook` updates the process-wide `protocol.objects_cache`
dict only when `'#' not in self.key.id()`, storing
`Object(id=self.key.id(), **self.to_dict(exclude=['as1', 'expire',
'object_ids', 'type']))` — a fresh entity built from the stored datastore
properties with the computed properties excluded. -/

/-- Stored (ndb) properties of `class Object` (models.py:342-411), plus the
runtime-only flags `new` and `changed` (models.py:372-374), which are plain
class attributes rather than datastore properties. The computed properties
`as1`, `type`, `object_ids` and `expire` are derivations over these fields,
not stored fields, so they are not part of this record. Payloads are kept
as opaque JSON text. -/
structure ObjectEntity where
  id : String
  users : List String
  domains : List String
  status : Option String
  source_protocol : Option String
  labels : List String
  as2 : Option String
  bsky : Option String
  mf2 : Option String
  our_as1 : Option String
  deleted : Option Bool
  delivered : List Target
  undelivered : List Target
  failed : List Target
  new : Option Bool
  changed : Option Bool
deriving DecidableEq, Repr

/-- Models `Object(id=self.key.id(), **self.to_dict(exclude=['as1',
'expire', 'object_ids', 'type']))` (models.py:449-452): a fresh entity
holding the stored properties only. `to_dict` yields ndb properties, so
the runtime flags `new`/`changed` are not carried over (they reset to
None on the copy), and the excluded computed properties are never cached. -/
def cacheCopy (o : ObjectEntity) : ObjectEntity :=
  { o with new := none, changed := none }

/-- Models `Object._post_put_hook` (models.py:433-452): after a successful
put, update the process-wide cache dict only when the key id contains no
'#' character. -/
def Object._post_put_hook (cache : List (String × ObjectEntity))
    (o : ObjectEntity) : List (String × ObjectEntity) :=
  if '#' ∈ o.id.data then cache else dictInsert cache o.id (cacheCopy o)

/-! ## Claim C10: cache update guarded on fragment-free ids -/

/-- C10: after a put, the cache is unchanged when the key id contains '#'
— which every synthesized Create/Update/Delete envelope id does — and
otherwise gains, under the key id, a fresh copy of the entity built from
the stored properties only (runtime `new`/`changed` flags reset, computed
properties structurally absent); since the cached entry is that copy, later
changes to the caller's entity value leave the cached snapshot equal to the
stored properties at put time. -/
theorem c10_cache_update (cache : List (String × ObjectEntity))
    (o : ObjectEntity) :
    ('#' ∈ o.id.data → Object._post_put_hook cache o = cache) ∧
    ('#' ∉ o.id.data →
      Object._post_put_hook cache o =
        dictInsert cache o.id (cacheCopy o) ∧
      List.lookup o.id (Object._post_put_hook cache o) =
        some (cacheCopy o)) ∧
    ((cacheCopy o).new = none ∧ (cacheCopy o).changed = none ∧
      (cacheCopy o).id = o.id ∧ (cacheCopy o).status = o.status ∧
      (cacheCopy o).as2 = o.as2 ∧ (cacheCopy o).bsky = o.bsky ∧
      (cacheCopy o).mf2 = o.mf2 ∧ (cacheCopy o).our_as1 = o.our_as1 ∧
      (cacheCopy o).delivered = o.delivered ∧
      (cacheCopy o).undelivered = o.undelivered ∧
      (cacheCopy o).failed = o.failed) ∧
    (∀ objId ts, '#' ∈ (createId objId).data ∧
      '#' ∈ (updateId objId ts).data ∧ '#' ∈ (deleteId objId).data) := by
  refine ⟨?_, ?_, ?_, ?_⟩
  · intro h
    simp [Object._post_put_hook, h]
  · intro h
    refine ⟨by simp [Object._post_put_hook, h], ?_⟩
    simp only [Object._post_put_hook, h, if_false]
    exact lookup_dictInsert cache o.id (cacheCopy o)
  · exact ⟨rfl, rfl, rfl, rfl, rfl, rfl, rfl, rfl, rfl, rfl, rfl⟩
  · intro objId ts
    refine ⟨?_, ?_, ?_⟩
    · rw [createId, String.data_append]
      exact List.mem_append_right _ (by decide)
    · rw [updateId, String.data_append, String.data_append]
      exact List.mem_append_left _ (List.mem_append_right _ (by decide))
    · rw [deleteId, String.data_append]
      exact List.mem_append_right _ (by decide)

/-- A synthesized Create envelope entity, whose id carries a fragment. -/
def envelopeObj : ObjectEntity :=
  ⟨"https://user.com/post#bridgy-fed-create", ["user.com"], [],
   some "complete", some "web", ["user", "activity"], none, none, none,
   some "{}", none, [], [], [], some true, none⟩

/-- A plain content entity, fragment-free id, with runtime flags set. -/
def plainObj : ObjectEntity :=
  ⟨"https://user.com/post", ["user.com"], [], none, some "web", [], none,
   none, some "{}", none, none, [], [], [], some true, some false⟩

/-- C10 witness: putting the envelope entity leaves the cache unchanged;
putting the plain entity caches its stored-property copy with the runtime
flags reset. -/
theorem c10_cache_update_witness :
    Object._post_put_hook [] envelopeObj = [] ∧
    (Object._post_put_hook [] plainObj =
      dictInsert [] plainObj.id (cacheCopy plainObj) ∧
    List.lookup plainObj.id (Object._post_put_hook [] plainObj) =
      some (cacheCopy plainObj)) :=
  ⟨(c10_cache_update [] envelopeObj).1 (by decide),
   (c10_cache_update [] plainObj).2.1 (by decide)⟩
